import Mathlib

/-!
# TDTP packet core: shallow embedding and verification

The repository ships a single C header, `src/pkg/python/libtdtp/tdtp_structs.h`,
declaring the data structures of the TDTP tabular data-transfer packet
(`D_Field`, `D_Schema`, `D_Row`, `D_Packet`, `D_FilterSpec`, `D_MaskConfig`).
The operations over these structures (schema validation, the row codec, the
filter engine, the masking engine and packet orchestration) are described by
the design specification but their code is not part of this repository, so
they are modelled here from the specification, as marked on each definition.
The struct declarations themselves are embedded directly from the header:
a C fixed-capacity `char[N]` buffer holding a NUL-terminated string is
embedded as a character list of length at most `N - 1`.

Text is modelled as `List Char`; C `int` and `long long` fields as `Int`.
-/

namespace TDTP

/-! ## Canonical decimal text for integers

Modelled from the spec: the row codec needs a canonical, stable textual form
for integer-valued fields (spec 4.2: "decimal/date formatting must be
canonical and stable").  `natRepr`/`intRepr` render the usual base-10 form,
`parseNat`/`parseInt` read it back. -/

/-- Fuel-driven digit extraction, so that concrete evaluation reduces in the
kernel; `fuel ≥ n` suffices for full extraction. -/
def natReprAux : Nat → Nat → List Char
  | 0, _ => []
  | fuel + 1, n => if n = 0 then [] else natReprAux fuel (n / 10) ++ [Nat.digitChar (n % 10)]

/-- Big-endian base-10 character rendering of a natural number. -/
def natRepr (n : Nat) : List Char :=
  if n = 0 then ['0'] else natReprAux n n

/-- Parse a nonempty all-digit character list as a natural number. -/
def parseNat (s : List Char) : Option Nat :=
  if s ≠ [] ∧ s.all Char.isDigit then
    some (s.foldl (fun a c => a * 10 + (c.toNat - 48)) 0)
  else none

/-- Signed base-10 rendering: minus sign followed by the magnitude. -/
def intRepr (i : Int) : List Char :=
  if i < 0 then '-' :: natRepr i.natAbs else natRepr i.toNat

/-- Parse an optionally minus-signed base-10 character list as an integer. -/
def parseInt (s : List Char) : Option Int :=
  if s.head? = some '-' then (parseNat s.tail).map (fun n => -(Int.ofNat n))
  else (parseNat s).map Int.ofNat

/-! ## Data model

Modelled from the spec (section 3).  The spec leaves the exact closed type
set to an external contract ("the exact set is an external contract but must
be closed and known to the Row Codec"); the model fixes a representative
closed set: string, integer, boolean and decimal (decimal values travel as
their scaled integer mantissa in canonical decimal notation, which is
canonical and stable as 4.2 requires). -/

/-- The closed set of field types known to the row codec. -/
inductive FieldType where
  | tstring
  | tint
  | tbool
  | tdec
deriving DecidableEq, Repr

/-- A schema field descriptor (spec section 3, mirroring `D_Field`). -/
structure Field where
  name : List Char
  type : FieldType
  length : Int
  precision : Int
  scale : Int
  is_key : Bool
  is_readonly : Bool
deriving DecidableEq, Repr

/-- A schema is an ordered sequence of fields (spec: `D_Schema`); per the
design notes the length is implied by the container. -/
abbrev Schema := List Field

/-- A typed row value; `vnull` is the designated null marker, distinct from
the empty string (spec section 3). -/
inductive Value where
  | vnull
  | vstr (s : List Char)
  | vint (i : Int)
  | vbool (b : Bool)
  | vdec (mantissa : Int)
deriving DecidableEq, Repr

/-- A materialized row: ordered values positionally aligned with the schema. -/
abbrev Row := List Value

/-- The designated null sentinel in the wire form. -/
def nullSentinel : List Char := ['\\', 'N']

/-! ## Row codec (spec 4.2)

Modelled from the spec: `decodeRow`/`encodeRow` are absent from the
repository source; only `D_Row` (a loosely typed value sequence) is
declared.  Bounded string types use the reject-by-default policy the spec
recommends (`RowError.lengthExceeded` when `length > 0` and the value
exceeds it). -/

/-- Row-level decode failures (spec 7: arity/type/length defects). -/
inductive RowError where
  | arity
  | typeMismatch (field : List Char) (raw : List Char)
  | lengthExceeded (field : List Char)
deriving DecidableEq, Repr

/-- Canonical wire text of one typed value. -/
def encodeValue : Value → List Char
  | .vnull => nullSentinel
  | .vstr s => s
  | .vint i => intRepr i
  | .vbool b => if b then ['t', 'r', 'u', 'e'] else ['f', 'a', 'l', 's', 'e']
  | .vdec m => intRepr m

/-- Parse the wire text for a boolean field. -/
def parseBool (s : List Char) : Option Bool :=
  if s = ['t', 'r', 'u', 'e'] then some true
  else if s = ['f', 'a', 'l', 's', 'e'] then some false
  else none

/-- Type-directed parse of one raw value against a field (spec 4.2): the
null sentinel always succeeds as null regardless of the declared type;
bounded strings reject oversize values; parse failures report the field and
the offending raw text. -/
def decodeValue (f : Field) (raw : List Char) : Except RowError Value :=
  if raw = nullSentinel then .ok .vnull
  else
    match f.type with
    | .tstring =>
        if 0 < f.length ∧ f.length < (raw.length : Int) then
          .error (.lengthExceeded f.name)
        else .ok (.vstr raw)
    | .tint =>
        match parseInt raw with
        | some i => .ok (.vint i)
        | none => .error (.typeMismatch f.name raw)
    | .tbool =>
        match parseBool raw with
        | some b => .ok (.vbool b)
        | none => .error (.typeMismatch f.name raw)
    | .tdec =>
        match parseInt raw with
        | some m => .ok (.vdec m)
        | none => .error (.typeMismatch f.name raw)

/-- Decode the cells of a row whose arity has already been checked. -/
def decodeCells : Schema → List (List Char) → Except RowError Row
  | [], [] => .ok []
  | f :: fs, r :: rs =>
      match decodeValue f r with
      | .error e => .error e
      | .ok v =>
          match decodeCells fs rs with
          | .error e => .error e
          | .ok vs => .ok (v :: vs)
  | _, _ => .error .arity

/-- `decodeRow(schema, rawValues)` (spec 4.2): fails with `RowError.arity`
when the raw value count differs from the schema's field count, otherwise
decodes each cell positionally. -/
def decodeRow (schema : Schema) (raws : List (List Char)) : Except RowError Row :=
  if raws.length = schema.length then decodeCells schema raws
  else .error .arity

/-- `encodeRow(schema, row)` (spec 4.2): the canonical wire text of a row. -/
def encodeRow (_schema : Schema) (row : Row) : List (List Char) :=
  row.map encodeValue

/-- One value conforms to a field's declared type: null always conforms,
otherwise the constructor must match the type, and bounded strings must
respect the length bound. -/
def valueConforms (f : Field) : Value → Bool
  | .vnull => true
  | .vstr s => f.type = FieldType.tstring && !(0 < f.length ∧ f.length < (s.length : Int))
  | .vint _ => f.type = FieldType.tint
  | .vbool _ => f.type = FieldType.tbool
  | .vdec _ => f.type = FieldType.tdec

/-- A row conforms to a schema: equal arity and positional type conformance. -/
def rowConforms : Schema → Row → Bool
  | [], [] => true
  | f :: fs, v :: vs => valueConforms f v && rowConforms fs vs
  | _, _ => false

/-- Example schema from the spec's section 8: an integer key `id` and a
bounded string `ssn`. -/
def sampleSchema : Schema :=
  [⟨['i', 'd'], .tint, 0, 0, 0, true, false⟩,
   ⟨['s', 's', 'n'], .tstring, 11, 0, 0, false, false⟩]

/-- Example row from the spec's section 8. -/
def sampleRow : Row :=
  [.vint 42, .vstr ['1', '2', '3', '-', '4', '5', '-', '6', '7', '8', '9']]

/-! ## Masking engine (spec 4.4)

Modelled from the spec: `maskRow` and `MaskConfig`'s behaviour are absent
from the repository source; only the `D_MaskConfig` struct is declared.
At the model level the mask character is a single display character (spec
section 3: "single display character used to replace redacted characters");
the raw `char[4]` buffer of the C mirror is embedded separately below. -/

/-- Redaction instructions (spec section 3, mirroring `D_MaskConfig`). -/
structure MaskConfig where
  fields : List (List Char)
  mask_char : Char
  visible_chars : Nat
deriving DecidableEq, Repr

/-- The pure text transform of spec 4.4: keep the last
`min(visible_chars, L)` characters, replace the first `L - keep` with the
mask character. -/
def maskStr (c : Char) (v : Nat) (s : List Char) : List Char :=
  List.replicate (s.length - min v s.length) c ++ s.drop (s.length - min v s.length)

/-- Mask one value: null stays null, any other value has its canonical text
masked (masking is a display/export transform, spec 4.4). -/
def maskValue (config : MaskConfig) : Value → Value
  | .vnull => .vnull
  | w => .vstr (maskStr config.mask_char config.visible_chars (encodeValue w))

/-- Placeholder descriptor used as the default of positional lookups. -/
def dummyField : Field := ⟨[], .tstring, 0, 0, 0, false, false⟩

/-- `maskRow(schema, row, config)` (spec 4.4): mask exactly the positions
whose field name is listed in the config; names absent from the schema are
skipped silently.  (The spec resolves each configured name via
`fieldIndex`; under the schema invariant of unique field names that is the
same as this positional test.) -/
def maskRow (schema : Schema) (row : Row) (config : MaskConfig) : Row :=
  List.zipWith (fun f v => if f.name ∈ config.fields then maskValue config v else v)
    schema row

/-- Example mask configuration from the spec's section 8: mask `ssn` with
`*`, keeping 4 visible tail characters. -/
def sampleMask : MaskConfig := ⟨[['s', 's', 'n']], '*', 4⟩

/-! ## Schema validation (spec 4.1)

Modelled from the spec: `validate` is absent from the repository source.
Duplicate names are reported first, then empty names, then bad decimal
precision/scale pairs. -/

/-- Structural schema defects (spec 4.1 / 7). -/
inductive SchemaError where
  | duplicateField
  | invalidName
  | invalidNumericSpec
deriving DecidableEq, Repr

/-- The names of a schema's fields, in order. -/
def fieldNames (schema : Schema) : List (List Char) :=
  schema.map Field.name

/-- `validate(schema)` (spec 4.1): name uniqueness, non-empty names, and
`scale ≤ precision` for decimal fields. -/
def validate (schema : Schema) : Except SchemaError Unit :=
  if ¬ (fieldNames schema).Nodup then .error .duplicateField
  else if schema.any (fun f => f.name.isEmpty) then .error .invalidName
  else if schema.any (fun f => decide (f.type = FieldType.tdec ∧ f.precision < f.scale)) then
    .error .invalidNumericSpec
  else .ok ()

/-- A schema containing the field name `id` twice. -/
def dupSchema : Schema :=
  [⟨['i', 'd'], .tint, 0, 0, 0, true, false⟩,
   ⟨['i', 'd'], .tstring, 0, 0, 0, false, false⟩]

/-! ## Filter engine (spec 4.3)

Modelled from the spec: `evaluate` and `applyAll` are absent from the
repository source; only `D_FilterSpec` is declared.  The AND-composition
policy of the spec's design note is adopted, with hard failure of the whole
batch on any `FilterError` (the strict policy of 4.3). -/

/-- Bad predicate or type/operator mismatch (spec 4.3 / 7). -/
inductive FilterError where
  | unknownField
  | unsupportedOp
  | invalidOperand
deriving DecidableEq, Repr

/-- One predicate condition (spec section 3, mirroring `D_FilterSpec`). -/
structure FilterSpec where
  field : List Char
  op : List Char
  value : List Char
  value2 : List Char
deriving DecidableEq, Repr

/-- `fieldIndex(schema, name)` (spec 4.1): the sole name-to-position
resolver, first match wins. -/
def fieldIndex (schema : Schema) (name : List Char) : Option Nat :=
  schema.findIdx? (fun f => f.name = name)

/-- Lexical order on character lists. -/
def strLe : List Char → List Char → Bool
  | [], _ => true
  | _ :: _, [] => false
  | a :: as, b :: bs => if a < b then true else if a = b then strLe as bs else false

/-- Type-aware `≤` on two non-null values of the same type: numeric for
integers and decimals, lexical for strings, `false < true` for booleans
(spec 4.3); `none` when the two sides are not comparable. -/
def valueLe : Value → Value → Option Bool
  | .vint a, .vint b => some (decide (a ≤ b))
  | .vdec a, .vdec b => some (decide (a ≤ b))
  | .vstr a, .vstr b => some (strLe a b)
  | .vbool a, .vbool b => some (!a || b)
  | _, _ => none

/-- Equality test of spec 4.3: null equals only null; otherwise the operand
is decoded against the field's type and compared value-type-aware. -/
def evalEq (f : Field) (v : Value) (raw : List Char) : Except FilterError Bool :=
  if raw = nullSentinel then .ok (decide (v = Value.vnull))
  else
    match v with
    | .vnull => .ok false
    | w =>
        match decodeValue f raw with
        | .error _ => .error .invalidOperand
        | .ok o => .ok (decide (w = o))

/-- Ordering comparisons of spec 4.3; a null on either side never satisfies
an ordering. -/
def evalOrd (f : Field) (v : Value) (op raw : List Char) : Except FilterError Bool :=
  if raw = nullSentinel then .ok false
  else
    match v with
    | .vnull => .ok false
    | w =>
        match decodeValue f raw with
        | .error _ => .error .invalidOperand
        | .ok o =>
            match valueLe w o, valueLe o w with
            | some le1, some le2 =>
                if op = ['<'] then .ok (le1 && !le2)
                else if op = ['<', '='] then .ok le1
                else if op = ['>'] then .ok (le2 && !le1)
                else .ok le2
            | _, _ => .error .unsupportedOp

/-- Inclusive range of spec 4.3 (`value ≤ field ≤ value2`); fails with
`invalidOperand` when `value2 < value`. -/
def evalRange (f : Field) (v : Value) (raw raw2 : List Char) : Except FilterError Bool :=
  match decodeValue f raw, decodeValue f raw2 with
  | .ok o1, .ok o2 =>
      match valueLe o1 o2 with
      | some true =>
          (match v with
          | .vnull => .ok false
          | w =>
              match valueLe o1 w, valueLe w o2 with
              | some a, some b => .ok (a && b)
              | _, _ => .error .unsupportedOp)
      | some false => .error .invalidOperand
      | none => .error .unsupportedOp
  | _, _ => .error .invalidOperand

/-- Split a comma-delimited operand list (spec 4.3, set-membership). -/
def splitComma : List Char → List (List Char)
  | [] => [[]]
  | c :: rest =>
      match splitComma rest with
      | [] => [[c]]
      | h :: t => if c = ',' then [] :: h :: t else (c :: h) :: t

/-- Set-membership of spec 4.3: the equality rule applied per element. -/
def evalIn (f : Field) (v : Value) (raw : List Char) : Except FilterError Bool :=
  (splitComma raw).foldr
    (fun el acc =>
      match evalEq f v el, acc with
      | .error e, _ => .error e
      | _, .error e => .error e
      | .ok b, .ok bs => .ok (b || bs))
    (.ok false)

/-- Pattern match of spec 4.3, valid only for string-typed fields; the
pattern is matched as a contiguous substring. -/
def evalLike (f : Field) (v : Value) (raw : List Char) : Except FilterError Bool :=
  match f.type, v with
  | .tstring, .vnull => .ok false
  | .tstring, .vstr s => .ok (decide (raw <:+: s))
  | _, _ => .error .unsupportedOp

/-- `evaluate(schema, row, spec)` (spec 4.3): resolve the field, dispatch
on the operator. -/
def evaluate (schema : Schema) (row : Row) (spec : FilterSpec) : Except FilterError Bool :=
  match fieldIndex schema spec.field with
  | none => .error .unknownField
  | some i =>
      let v := row.getD i .vnull
      let f := schema.getD i dummyField
      if spec.op = ['='] then evalEq f v spec.value
      else if spec.op = ['!', '='] then
        match evalEq f v spec.value with
        | .error e => .error e
        | .ok b => .ok (!b)
      else if spec.op = ['<'] ∨ spec.op = ['<', '='] ∨ spec.op = ['>'] ∨ spec.op = ['>', '='] then
        evalOrd f v spec.op spec.value
      else if spec.op = ['b', 'e', 't', 'w', 'e', 'e', 'n'] then
        evalRange f v spec.value spec.value2
      else if spec.op = ['i', 'n'] then evalIn f v spec.value
      else if spec.op = ['l', 'i', 'k', 'e'] then evalLike f v spec.value
      else if spec.op = ['i', 's', '_', 'n', 'u', 'l', 'l'] then
        .ok (decide (v = Value.vnull))
      else if spec.op = ['i', 's', '_', 'n', 'o', 't', '_', 'n', 'u', 'l', 'l'] then
        .ok (!(decide (v = Value.vnull)))
      else .error .unsupportedOp

/-- Conjunction of all specs over one row (spec 4.3: a row passes iff it
passes every spec); every spec is evaluated, the first error wins. -/
def rowPasses (schema : Schema) (row : Row) : List FilterSpec → Except FilterError Bool
  | [] => .ok true
  | sp :: sps =>
      match evaluate schema row sp, rowPasses schema row sps with
      | .error e, _ => .error e
      | _, .error e => .error e
      | .ok b, .ok bs => .ok (b && bs)

/-- `applyAll(schema, rows, specs)` (spec 4.3): keep the rows passing every
spec; any `FilterError` fails the whole batch (strict policy). -/
def applyAll (schema : Schema) : List Row → List FilterSpec → Except FilterError (List Row)
  | [], _ => .ok []
  | r :: rs, specs =>
      match rowPasses schema r specs, applyAll schema rs specs with
      | .error e, _ => .error e
      | _, .error e => .error e
      | .ok b, .ok rest => .ok (if b then r :: rest else rest)

/-- The Boolean selection a row receives when its evaluation succeeds. -/
def passesOk (schema : Schema) (specs : List FilterSpec) (r : Row) : Bool :=
  match rowPasses schema r specs with
  | .ok b => b
  | .error _ => false

/-- Single-field integer schema used by the filter witnesses. -/
def idSchema : Schema := [⟨['i', 'd'], .tint, 0, 0, 0, true, false⟩]

/-- The spec's example predicate `id >= 10`. -/
def geSpec : FilterSpec := ⟨['i', 'd'], ['>', '='], ['1', '0'], []⟩

/-- A second predicate `id < 15`. -/
def ltSpec : FilterSpec := ⟨['i', 'd'], ['<'], ['1', '5'], []⟩

/-- The spec's example row set with ids 5, 10, 15. -/
def rowsExample : List Row := [[.vint 5], [.vint 10], [.vint 15]]

/-- An equality predicate whose operand is the null sentinel. -/
def nullEqSpec : FilterSpec := ⟨['i', 'd'], ['='], nullSentinel, []⟩

/-- An equality predicate with the non-null operand `7`. -/
def litEqSpec : FilterSpec := ⟨['i', 'd'], ['='], ['7'], []⟩

/-! ## Packet orchestration (spec 4.5)

Modelled from the spec: `decode`/`encode` are absent from the repository
source; only the `D_Packet` struct is declared.  The exact byte layout is an
external, versioned contract (spec 6), so the wire form is modelled as the
self-describing structure the spec lists: metadata, compression tag, schema
and positionally-aligned raw value sequences.  Fail-fast row decoding is
used, compression is validated first, and the closed compression set is a
representative versioned set containing `none`. -/

/-- Metadata bounds, unknown compression, decode/encode-level failures
(spec 7). -/
inductive PacketError where
  | fieldTooLong
  | unknownCompression
  | cannotEncodeError
  | badSchema (e : SchemaError)
  | rowDecode (e : RowError)
deriving DecidableEq, Repr

/-- The packet aggregate (spec section 3, mirroring `D_Packet` at the model
level); the error slot is `some message` exactly when set. -/
structure Packet where
  rows : List Row
  schema : Schema
  msg_type : List Char
  table_name : List Char
  message_id : List Char
  timestamp_unix : Int
  compression : List Char
  error : Option (List Char)
deriving DecidableEq, Repr

/-- The decoded self-describing wire structure of spec 6 (byte layout
itself is an external contract). -/
structure RawPacket where
  msg_type : List Char
  table_name : List Char
  message_id : List Char
  timestamp_unix : Int
  compression : List Char
  schema : Schema
  raws : List (List (List Char))
deriving DecidableEq, Repr

/-- The closed, versioned set of compression mode identifiers (spec 4.5:
"none, or a known codec identifier"). -/
def knownCompressionModes : List (List Char) :=
  [['n', 'o', 'n', 'e'], ['g', 'z', 'i', 'p'], ['z', 's', 't', 'd']]

/-- Decode every row against the schema, failing fast on the first row
error (spec 4.5). -/
def decodeRows (schema : Schema) : List (List (List Char)) → Except RowError (List Row)
  | [] => .ok []
  | raws :: rest =>
      match decodeRow schema raws with
      | .error e => .error e
      | .ok row =>
          match decodeRows schema rest with
          | .error e => .error e
          | .ok rows => .ok (row :: rows)

/-- `decode` (spec 4.5): validate the compression tag against the closed
set (fail closed), enforce the metadata bounds, validate the schema, then
decode all rows fail-fast. -/
def decodePacket (w : RawPacket) : Except PacketError Packet :=
  if w.compression ∉ knownCompressionModes then .error .unknownCompression
  else if 31 < w.msg_type.length ∨ 255 < w.table_name.length ∨ 63 < w.message_id.length then
    .error .fieldTooLong
  else
    match validate w.schema with
    | .error e => .error (.badSchema e)
    | .ok () =>
        match decodeRows w.schema w.raws with
        | .error e => .error (.rowDecode e)
        | .ok rows =>
            .ok ⟨rows, w.schema, w.msg_type, w.table_name, w.message_id,
              w.timestamp_unix, w.compression, none⟩

/-- `encode` (spec 4.5): forbidden when the error slot is set; otherwise
re-encode every row into the wire structure. -/
def encodePacket (p : Packet) : Except PacketError RawPacket :=
  if p.error.isSome then .error .cannotEncodeError
  else
    .ok ⟨p.msg_type, p.table_name, p.message_id, p.timestamp_unix, p.compression,
      p.schema, p.rows.map (encodeRow p.schema)⟩

/-- A wire structure carrying the unknown compression tag `zzz-unknown`. -/
def unknownCompPacket : RawPacket :=
  ⟨['s', 'n', 'a', 'p'], ['t'], ['m', '1'], 0,
   ['z', 'z', 'z', '-', 'u', 'n', 'k', 'n', 'o', 'w', 'n'], idSchema, [[['1']]]⟩

/-- A packet whose error slot carries the message `bad`. -/
def erroredPacket : Packet :=
  ⟨[], idSchema, ['s', 'n', 'a', 'p'], ['t'], ['m', '1'], 0,
   ['n', 'o', 'n', 'e'], some ['b', 'a', 'd']⟩

/-! ## The C struct mirror (tdtp_structs.h)

Direct embedding of the header's declarations.  A C `char[N]` buffer
holding a NUL-terminated string stores at most `N - 1` content bytes; it is
embedded as a character list of length at most `N - 1`, one `Char` per
byte.  A (pointer, count) pair is embedded as a list whose length is the
count. -/

/-- The content of a NUL-terminated C character buffer that can hold at
most `n` content bytes (a `char[n + 1]` in the header). -/
def CharBuf (n : Nat) := {s : List Char // s.length ≤ n}

/-- `D_Field` (tdtp_structs.h lines 5-13): `char name[256]`,
`char type_name[64]`, and five C `int` fields. -/
structure D_Field where
  name : CharBuf 255
  type_name : CharBuf 63
  length : Int
  precision : Int
  scale : Int
  is_key : Int
  is_readonly : Int

/-- `D_Schema` (lines 16-19): `fields` with `field_count` embedded as the
list length. -/
structure D_Schema where
  fields : List D_Field

/-- `D_Row` (lines 22-25): `values` with `value_count` embedded as the list
length. -/
structure D_Row where
  values : List (List Char)

/-- `D_Packet` (lines 28-38): the metadata buffers are `char msg_type[32]`,
`char table_name[256]`, `char message_id[64]`, `char compression[16]` and
`char error[1024]`, with `long long timestamp_unix`. -/
structure D_Packet where
  rows : List D_Row
  schema : D_Schema
  msg_type : CharBuf 31
  table_name : CharBuf 255
  message_id : CharBuf 63
  timestamp_unix : Int
  compression : CharBuf 15
  error : CharBuf 1023

/-- `D_FilterSpec` (lines 41-46). -/
structure D_FilterSpec where
  field : CharBuf 255
  op : CharBuf 31
  value : CharBuf 1023
  value2 : CharBuf 1023

/-- `D_MaskConfig` (lines 49-54): `char mask_char[4]` holds a NUL-terminated
sequence of at most 3 content bytes. -/
structure D_MaskConfig where
  fields : List (List Char)
  mask_char : CharBuf 3
  visible_chars : Int

/-! ## Theorems -/

theorem natReprAux_eq : ∀ {fuel n : Nat}, n ≤ fuel →
    natReprAux fuel n = (Nat.digits 10 n).reverse.map Nat.digitChar := by
  intro fuel
  induction fuel with
  | zero =>
    intro n h
    interval_cases n
    simp [natReprAux]
  | succ fuel ih =>
    intro n h
    by_cases hn : n = 0
    · simp [natReprAux, hn]
    · have hdiv : n / 10 ≤ fuel := by
        have := Nat.div_lt_self (Nat.pos_of_ne_zero hn) (by norm_num : 1 < 10)
        omega
      rw [natReprAux, if_neg hn, ih hdiv,
        Nat.digits_def' (by norm_num : 1 < 10) (Nat.pos_of_ne_zero hn)]
      simp

theorem natRepr_eq (n : Nat) :
    natRepr n = if n = 0 then ['0'] else (Nat.digits 10 n).reverse.map Nat.digitChar := by
  unfold natRepr
  by_cases hn : n = 0
  · simp [hn]
  · rw [if_neg hn, if_neg hn, natReprAux_eq le_rfl]

theorem digitChar_isDigit {d : Nat} (hd : d < 10) : (Nat.digitChar d).isDigit = true := by
  interval_cases d <;> decide

theorem digitChar_toNat {d : Nat} (hd : d < 10) : (Nat.digitChar d).toNat - 48 = d := by
  interval_cases d <;> decide

theorem natRepr_ne_nil (n : Nat) : natRepr n ≠ [] := by
  rw [natRepr_eq]
  split
  · simp
  · simp only [ne_eq, List.map_eq_nil_iff, List.reverse_eq_nil_iff]
    exact Nat.digits_ne_nil_iff_ne_zero.mpr (by assumption)

theorem natRepr_all_digits (n : Nat) : (natRepr n).all Char.isDigit = true := by
  rw [natRepr_eq]
  split
  · decide
  · simp only [List.all_eq_true, List.mem_map, List.mem_reverse]
    rintro c ⟨d, hd, rfl⟩
    exact digitChar_isDigit (Nat.digits_lt_base (by norm_num) hd)

theorem foldr_ofDigits (l : List Nat) :
    List.foldr (fun d acc => acc * 10 + d) 0 l = Nat.ofDigits 10 l := by
  induction l with
  | nil => simp [Nat.ofDigits]
  | cons d t ih => simp [Nat.ofDigits, ih]; ring

theorem foldl_digits_reverse (l : List Nat) :
    List.foldl (fun a d => a * 10 + d) 0 l.reverse = Nat.ofDigits 10 l := by
  rw [List.foldl_reverse]
  exact foldr_ofDigits l

theorem foldl_map_digitChar (l : List Nat) (hl : ∀ d ∈ l, d < 10) (a : Nat) :
    List.foldl (fun a c => a * 10 + (c.toNat - 48)) a (l.map Nat.digitChar) =
    List.foldl (fun a d => a * 10 + d) a l := by
  induction l generalizing a with
  | nil => rfl
  | cons d t ih =>
    simp only [List.map_cons, List.foldl_cons]
    rw [digitChar_toNat (hl d (by simp))]
    exact ih (fun x hx => hl x (by simp [hx])) _

/-- Parsing the canonical rendering of a natural number recovers it. -/
theorem parseNat_natRepr (n : Nat) : parseNat (natRepr n) = some n := by
  unfold parseNat
  rw [if_pos ⟨natRepr_ne_nil n, natRepr_all_digits n⟩]
  congr 1
  by_cases h : n = 0
  · subst h; decide
  · rw [natRepr_eq, if_neg h,
      foldl_map_digitChar _ (fun d hd => Nat.digits_lt_base (by norm_num) (List.mem_reverse.mp hd)),
      foldl_digits_reverse, Nat.ofDigits_digits]

theorem natRepr_head_ne_minus (n : Nat) : (natRepr n).head? ≠ some '-' := by
  cases h : natRepr n with
  | nil => exact absurd h (natRepr_ne_nil n)
  | cons c t =>
    have hall := natRepr_all_digits n
    rw [h] at hall
    simp only [List.all_cons, Bool.and_eq_true] at hall
    intro hc
    rw [List.head?_cons, Option.some_inj] at hc
    subst hc
    exact absurd hall.1 (by decide)

/-- Parsing the canonical rendering of an integer recovers it. -/
theorem parseInt_intRepr (i : Int) : parseInt (intRepr i) = some i := by
  unfold parseInt intRepr
  split
  case isTrue h =>
    rw [if_pos (by rw [List.head?_cons]), List.tail_cons, parseNat_natRepr, Option.map_some']
    simp only [Int.ofNat_eq_coe]
    congr 1
    omega
  case isFalse h =>
    rw [if_neg (natRepr_head_ne_minus _), parseNat_natRepr, Option.map_some']
    simp only [Int.ofNat_eq_coe]
    congr 1
    omega

theorem natRepr_ne_sentinel (n : Nat) : natRepr n ≠ nullSentinel := by
  intro h
  have hall := natRepr_all_digits n
  rw [h] at hall
  exact absurd hall (by decide)

theorem intRepr_ne_sentinel (i : Int) : intRepr i ≠ nullSentinel := by
  unfold intRepr
  split
  · intro h
    simp [nullSentinel] at h
  · exact natRepr_ne_sentinel _

/-- Decoding the canonical encoding of a conformant value succeeds and
yields a value with the same canonical encoding. -/
theorem decodeValue_encodeValue (f : Field) (v : Value) (h : valueConforms f v = true) :
    ∃ v', decodeValue f (encodeValue v) = .ok v' ∧ encodeValue v' = encodeValue v := by
  cases v with
  | vnull => exact ⟨.vnull, by simp [decodeValue, encodeValue], rfl⟩
  | vstr s =>
    simp only [valueConforms, Bool.and_eq_true, decide_eq_true_eq, Bool.not_eq_true',
      decide_eq_false_iff_not] at h
    by_cases hs : s = nullSentinel
    · exact ⟨.vnull, by simp [decodeValue, encodeValue, hs], by simp [encodeValue, hs]⟩
    · refine ⟨.vstr s, ?_, rfl⟩
      simp only [decodeValue, encodeValue, if_neg hs, h.1]
      rw [if_neg h.2]
  | vint i =>
    simp only [valueConforms, decide_eq_true_eq] at h
    refine ⟨.vint i, ?_, rfl⟩
    simp [decodeValue, encodeValue, h, intRepr_ne_sentinel i, parseInt_intRepr]
  | vbool b =>
    simp only [valueConforms, decide_eq_true_eq] at h
    refine ⟨.vbool b, ?_, rfl⟩
    cases b <;>
      simp [decodeValue, encodeValue, h, parseBool,
        show (['t', 'r', 'u', 'e'] : List Char) ≠ nullSentinel by decide,
        show (['f', 'a', 'l', 's', 'e'] : List Char) ≠ nullSentinel by decide]
  | vdec m =>
    simp only [valueConforms, decide_eq_true_eq] at h
    refine ⟨.vdec m, ?_, rfl⟩
    simp [decodeValue, encodeValue, h, intRepr_ne_sentinel m, parseInt_intRepr]

theorem rowConforms_length : ∀ {fs : Schema} {vs : Row},
    rowConforms fs vs = true → vs.length = fs.length := by
  intro fs
  induction fs with
  | nil => intro vs h; cases vs with
    | nil => rfl
    | cons v vs => simp [rowConforms] at h
  | cons f fs ih =>
    intro vs h
    cases vs with
    | nil => simp [rowConforms] at h
    | cons v vs =>
      simp only [rowConforms, Bool.and_eq_true] at h
      simp [ih h.2]

theorem decodeCells_encode : ∀ {fs : Schema} {vs : Row}, rowConforms fs vs = true →
    ∃ vs', decodeCells fs (vs.map encodeValue) = .ok vs' ∧
      vs'.map encodeValue = vs.map encodeValue := by
  intro fs
  induction fs with
  | nil => intro vs h; cases vs with
    | nil => exact ⟨[], rfl, rfl⟩
    | cons v vs => simp [rowConforms] at h
  | cons f fs ih =>
    intro vs h
    cases vs with
    | nil => simp [rowConforms] at h
    | cons v vs =>
      simp only [rowConforms, Bool.and_eq_true] at h
      obtain ⟨v', hv, hev⟩ := decodeValue_encodeValue f v h.1
      obtain ⟨vs', hvs, hevs⟩ := ih h.2
      exact ⟨v' :: vs', by simp [decodeCells, hv, hvs], by simp [hev, hevs]⟩

theorem decodeValue_ne_arity (f : Field) (raw : List Char) :
    decodeValue f raw ≠ .error .arity := by
  unfold decodeValue
  split
  · simp
  · split <;> split <;> simp

theorem decodeCells_ne_arity : ∀ {fs : Schema} {rs : List (List Char)},
    rs.length = fs.length → decodeCells fs rs ≠ .error .arity := by
  intro fs
  induction fs with
  | nil => intro rs h; cases rs with
    | nil => simp [decodeCells]
    | cons r rs => simp at h
  | cons f fs ih =>
    intro rs h
    cases rs with
    | nil => simp at h
    | cons r rs =>
      simp only [List.length_cons, Nat.add_right_cancel_iff] at h
      unfold decodeCells
      split
      next e hv =>
        intro hcontra
        have he : e = RowError.arity := by injection hcontra
        subst he
        exact decodeValue_ne_arity f r hv
      next v hv =>
        split
        next e hc =>
          intro hcontra
          exact ih h (hc.trans hcontra)
        next vs hc => simp

/-- **C2.** For every schema and every row conforming to it, decoding the
canonical encoding succeeds and re-encoding the decoded row reproduces the
original encoding: `encodeRow(schema, decodeRow(schema, encodeRow(schema,
row)))` equals `encodeRow(schema, row)` (idempotent canonical formatting). -/
theorem decodeRow_encodeRow_roundtrip (schema : Schema) (row : Row)
    (h : rowConforms schema row = true) :
    (decodeRow schema (encodeRow schema row)).map (encodeRow schema) =
      .ok (encodeRow schema row) := by
  obtain ⟨row', hdec, henc⟩ := decodeCells_encode h
  have hlen : row.length = schema.length := rowConforms_length h
  unfold decodeRow encodeRow
  rw [if_pos (by simp [hlen])]
  rw [hdec]
  simp only [Except.map]
  rw [henc]

/-- Witness for C2 at the spec's example schema and row. -/
theorem decodeRow_encodeRow_roundtrip_witness :
    rowConforms sampleSchema sampleRow = true ∧
    (decodeRow sampleSchema (encodeRow sampleSchema sampleRow)).map (encodeRow sampleSchema) =
      .ok (encodeRow sampleSchema sampleRow) :=
  ⟨by decide, decodeRow_encodeRow_roundtrip sampleSchema sampleRow (by decide)⟩

/-- **C3.** `decodeRow` fails with `RowError.arity` if and only if the raw
value count differs from the schema's field count, for every schema
(including the empty one); when the counts match, no arity error occurs. -/
theorem decodeRow_arity_iff (schema : Schema) (raws : List (List Char)) :
    decodeRow schema raws = .error .arity ↔ raws.length ≠ schema.length := by
  unfold decodeRow
  by_cases h : raws.length = schema.length
  · rw [if_pos h]
    simp [h, decodeCells_ne_arity h]
  · rw [if_neg h]
    simp [h]

/-- **C1.** Masking a string value of length `L` with `visible_chars = v`
keeps the last `min(v, L)` characters, replaces the first `L - min(v, L)`
with the mask character, and preserves the length; `v = 0` masks the whole
value, `v ≥ L` leaves it unchanged, and a null value stays null. -/
theorem maskRow_string_masking (schema : Schema) (row : Row) (config : MaskConfig)
    (i : Nat) (hi : i < schema.length) (hir : i < row.length)
    (hf : (schema.getD i dummyField).name ∈ config.fields) :
    (row.getD i .vnull = .vnull → (maskRow schema row config).getD i .vnull = .vnull) ∧
    ∀ s : List Char, row.getD i .vnull = .vstr s →
      (maskRow schema row config).getD i .vnull =
        .vstr (maskStr config.mask_char config.visible_chars s) ∧
      (maskStr config.mask_char config.visible_chars s).length = s.length ∧
      (maskStr config.mask_char config.visible_chars s).take
          (s.length - min config.visible_chars s.length) =
        List.replicate (s.length - min config.visible_chars s.length) config.mask_char ∧
      (maskStr config.mask_char config.visible_chars s).drop
          (s.length - min config.visible_chars s.length) =
        s.drop (s.length - min config.visible_chars s.length) ∧
      (config.visible_chars = 0 →
        maskStr config.mask_char config.visible_chars s =
          List.replicate s.length config.mask_char) ∧
      (s.length ≤ config.visible_chars →
        maskStr config.mask_char config.visible_chars s = s) := by
  have hm : i < (maskRow schema row config).length := by
    rw [maskRow, List.length_zipWith]
    exact lt_min hi hir
  have hmask : (maskRow schema row config).getD i .vnull =
      maskValue config (row.getD i .vnull) := by
    rw [List.getD_eq_getElem _ _ hm, List.getD_eq_getElem _ _ hir]
    rw [List.getD_eq_getElem _ _ hi] at hf
    simp only [maskRow, List.getElem_zipWith]
    rw [if_pos hf]
  constructor
  · intro hnull
    rw [hmask, hnull]
    rfl
  · intro s hs
    refine ⟨by rw [hmask, hs]; rfl, ?_, ?_, ?_, ?_, ?_⟩
    · simp only [maskStr, List.length_append, List.length_replicate, List.length_drop]
      omega
    · rw [maskStr, List.take_left' (List.length_replicate _ _)]
    · rw [maskStr, List.drop_left' (List.length_replicate _ _)]
    · intro hv
      simp [maskStr, hv]
    · intro hv
      simp [maskStr, Nat.min_eq_right hv]

/-- Witness for C1 at the spec's example: masking the `ssn` column of the
example row. -/
theorem maskRow_string_masking_witness :
    (maskRow sampleSchema sampleRow sampleMask).getD 1 .vnull =
      .vstr (maskStr sampleMask.mask_char sampleMask.visible_chars
        ['1', '2', '3', '-', '4', '5', '-', '6', '7', '8', '9']) ∧
    (maskStr sampleMask.mask_char sampleMask.visible_chars
      ['1', '2', '3', '-', '4', '5', '-', '6', '7', '8', '9']).length =
      (['1', '2', '3', '-', '4', '5', '-', '6', '7', '8', '9'] : List Char).length := by
  have h := maskRow_string_masking sampleSchema sampleRow sampleMask 1
    (by decide) (by decide) (by decide)
  have hs := h.2 ['1', '2', '3', '-', '4', '5', '-', '6', '7', '8', '9'] (by decide)
  exact ⟨hs.1, hs.2.1⟩

/-- **C5.** A schema with unique, non-empty field names whose decimal
fields satisfy `scale ≤ precision` validates successfully, and any schema
containing two fields with the same name fails with
`SchemaError.duplicateField`. -/
theorem validate_spec (schema : Schema) :
    ((fieldNames schema).Nodup → (∀ f ∈ schema, f.name ≠ []) →
      (∀ f ∈ schema, f.type = FieldType.tdec → f.scale ≤ f.precision) →
      validate schema = .ok ()) ∧
    (¬ (fieldNames schema).Nodup → validate schema = .error .duplicateField) := by
  constructor
  · intro hnodup hnames hdec
    unfold validate
    rw [if_neg (by simpa using hnodup)]
    rw [if_neg ?hname, if_neg ?hnum]
    case hname =>
      simp only [List.any_eq_true, not_exists, not_and, Bool.not_eq_true]
      intro f hf
      simp [List.isEmpty_iff, hnames f hf]
    case hnum =>
      simp only [List.any_eq_true, not_exists, not_and, Bool.not_eq_true]
      intro f hf
      have := hdec f hf
      simp only [decide_eq_false_iff_not, not_and, not_lt]
      intro hty
      exact this hty
  · intro hdup
    unfold validate
    rw [if_pos (by simpa using hdup)]

/-- Witness for C5: the example schema validates; duplicating `id` yields
`duplicateField`. -/
theorem validate_spec_witness :
    validate sampleSchema = .ok () ∧ validate dupSchema = .error .duplicateField :=
  ⟨(validate_spec sampleSchema).1 (by decide) (by decide) (by decide),
   (validate_spec dupSchema).2 (by decide)⟩

theorem exists_ok {ε : Type _} {α : Type _} {x : Except ε α} (h : x.isOk = true) :
    ∃ a, x = .ok a := by
  cases x with
  | ok a => exact ⟨a, rfl⟩
  | error e => simp [Except.isOk, Except.toBool] at h

theorem passesOk_eq {schema : Schema} {specs : List FilterSpec} {r : Row} {b : Bool}
    (h : rowPasses schema r specs = .ok b) : passesOk schema specs r = b := by
  simp [passesOk, h]

theorem rowPasses_all_ok {schema : Schema} {r : Row} {specs : List FilterSpec}
    (h : ∀ sp ∈ specs, (evaluate schema r sp).isOk = true) :
    (rowPasses schema r specs).isOk = true := by
  induction specs with
  | nil => rfl
  | cons sp sps ih =>
    obtain ⟨b, hb⟩ := exists_ok (h sp (by simp))
    obtain ⟨bs, hbs⟩ := exists_ok (ih (fun x hx => h x (by simp [hx])))
    unfold rowPasses
    rw [hb, hbs]
    rfl

theorem rowPasses_single {schema : Schema} {r : Row} {A : FilterSpec} {a : Bool}
    (ha : evaluate schema r A = .ok a) : rowPasses schema r [A] = .ok a := by
  simp [rowPasses, ha]

theorem rowPasses_pair {schema : Schema} {r : Row} {A B : FilterSpec} {a b : Bool}
    (ha : evaluate schema r A = .ok a) (hb : evaluate schema r B = .ok b) :
    rowPasses schema r [A, B] = .ok (a && b) := by
  simp [rowPasses, ha, hb]

theorem applyAll_filter {schema : Schema} {rows : List Row} {specs : List FilterSpec}
    (h : ∀ r ∈ rows, (rowPasses schema r specs).isOk = true) :
    applyAll schema rows specs = .ok (rows.filter (passesOk schema specs)) := by
  induction rows with
  | nil => rfl
  | cons r rs ih =>
    obtain ⟨b, hb⟩ := exists_ok (h r (by simp))
    have ih' := ih (fun x hx => h x (by simp [hx]))
    unfold applyAll
    rw [hb, ih', List.filter_cons, passesOk_eq hb]

/-- **C4.** When every spec evaluates cleanly on every row, `applyAll` with
`[A, B]` selects exactly the rows obtained by applying `A` and then `B`
sequentially, and the same rows as `applyAll` with `[B, A]`: AND-composition,
independent of evaluation order. -/
theorem applyAll_and_composition (schema : Schema) (rows : List Row) (A B : FilterSpec)
    (h : ∀ r ∈ rows, (evaluate schema r A).isOk = true ∧ (evaluate schema r B).isOk = true) :
    (applyAll schema rows [A]).bind (fun rs => applyAll schema rs [B]) =
      applyAll schema rows [A, B] ∧
    applyAll schema rows [B, A] = applyAll schema rows [A, B] := by
  have hA : ∀ r ∈ rows, (rowPasses schema r [A]).isOk = true := by
    intro r hr
    refine rowPasses_all_ok ?_
    intro sp hsp
    simp only [List.mem_singleton] at hsp
    subst hsp
    exact (h r hr).1
  have hAB : ∀ r ∈ rows, (rowPasses schema r [A, B]).isOk = true := by
    intro r hr
    refine rowPasses_all_ok ?_
    intro sp hsp
    simp only [List.mem_cons, List.mem_singleton, List.not_mem_nil, or_false] at hsp
    rcases hsp with rfl | rfl
    · exact (h r hr).1
    · exact (h r hr).2
  have hBA : ∀ r ∈ rows, (rowPasses schema r [B, A]).isOk = true := by
    intro r hr
    refine rowPasses_all_ok ?_
    intro sp hsp
    simp only [List.mem_cons, List.mem_singleton, List.not_mem_nil, or_false] at hsp
    rcases hsp with rfl | rfl
    · exact (h r hr).2
    · exact (h r hr).1
  have hBfiltered : ∀ r ∈ rows.filter (passesOk schema [A]), (rowPasses schema r [B]).isOk = true := by
    intro r hr
    have hr' := (List.mem_filter.mp hr).1
    refine rowPasses_all_ok ?_
    intro sp hsp
    simp only [List.mem_singleton] at hsp
    subst hsp
    exact (h r hr').2
  have e1 := applyAll_filter hA
  have e2 := applyAll_filter hBfiltered
  have e3 := applyAll_filter hAB
  have e4 := applyAll_filter hBA
  have hfilter1 : (rows.filter (passesOk schema [A])).filter (passesOk schema [B]) =
      rows.filter (passesOk schema [A, B]) := by
    rw [List.filter_filter]
    refine List.filter_congr ?_
    intro r hr
    obtain ⟨a, ha⟩ := exists_ok (h r hr).1
    obtain ⟨b, hb⟩ := exists_ok (h r hr).2
    rw [passesOk_eq (rowPasses_single hb), passesOk_eq (rowPasses_single ha),
      passesOk_eq (rowPasses_pair ha hb), Bool.and_comm]
  have hfilter2 : rows.filter (passesOk schema [B, A]) = rows.filter (passesOk schema [A, B]) := by
    refine List.filter_congr ?_
    intro r hr
    obtain ⟨a, ha⟩ := exists_ok (h r hr).1
    obtain ⟨b, hb⟩ := exists_ok (h r hr).2
    rw [passesOk_eq (rowPasses_pair hb ha), passesOk_eq (rowPasses_pair ha hb), Bool.and_comm]
  constructor
  · rw [e1, e3]
    show applyAll schema (rows.filter (passesOk schema [A])) [B] = _
    rw [e2, hfilter1]
  · rw [e4, e3, hfilter2]

/-- Witness for C4 at the spec's example rows with `id >= 10` and `id < 15`. -/
theorem applyAll_and_composition_witness :
    (applyAll idSchema rowsExample [geSpec]).bind
        (fun rs => applyAll idSchema rs [ltSpec]) =
      applyAll idSchema rowsExample [geSpec, ltSpec] ∧
    applyAll idSchema rowsExample [ltSpec, geSpec] =
      applyAll idSchema rowsExample [geSpec, ltSpec] :=
  applyAll_and_composition idSchema rowsExample geSpec ltSpec (by decide)

/-- **C8.** Under the filter's equality operator, a comparison in which
exactly one side is null is false, and a null field value equals a null
operand; null is never equal to any non-null value. -/
theorem evaluate_null_equality (schema : Schema) (row : Row) (spec : FilterSpec) (i : Nat)
    (hop : spec.op = ['=']) (hidx : fieldIndex schema spec.field = some i) :
    (row.getD i .vnull = .vnull ∧ spec.value ≠ nullSentinel →
      evaluate schema row spec = .ok false) ∧
    (row.getD i .vnull ≠ .vnull ∧ spec.value = nullSentinel →
      evaluate schema row spec = .ok false) ∧
    (row.getD i .vnull = .vnull ∧ spec.value = nullSentinel →
      evaluate schema row spec = .ok true) := by
  have heval : evaluate schema row spec =
      evalEq (schema.getD i dummyField) (row.getD i .vnull) spec.value := by
    unfold evaluate
    rw [hidx]
    simp only [hop]
    simp
  refine ⟨?_, ?_, ?_⟩
  · rintro ⟨hv, hraw⟩
    rw [heval, hv]
    unfold evalEq
    rw [if_neg hraw]
  · rintro ⟨hv, hraw⟩
    rw [heval]
    unfold evalEq
    rw [if_pos hraw, decide_eq_false hv]
  · rintro ⟨hv, hraw⟩
    rw [heval, hv]
    unfold evalEq
    rw [if_pos hraw]
    simp

/-- Witness for C8: a null `id` equals the null operand, a non-null `id`
does not, and a null `id` never equals a non-null operand. -/
theorem evaluate_null_equality_witness :
    evaluate idSchema [.vnull] nullEqSpec = .ok true ∧
    evaluate idSchema [.vint 7] nullEqSpec = .ok false ∧
    evaluate idSchema [.vnull] litEqSpec = .ok false :=
  ⟨(evaluate_null_equality idSchema [.vnull] nullEqSpec 0 rfl rfl).2.2
      ⟨by decide, by decide⟩,
   (evaluate_null_equality idSchema [.vint 7] nullEqSpec 0 rfl rfl).2.1
      ⟨by decide, by decide⟩,
   (evaluate_null_equality idSchema [.vnull] litEqSpec 0 rfl rfl).1
      ⟨by decide, by decide⟩⟩

/-- **C6.** Decoding a packet whose compression identifier is outside the
closed known set fails with `PacketError.unknownCompression` and never
silently succeeds. -/
theorem decodePacket_unknown_compression (w : RawPacket)
    (h : w.compression ∉ knownCompressionModes) :
    decodePacket w = .error .unknownCompression ∧ ∀ p, decodePacket w ≠ .ok p := by
  have hd : decodePacket w = .error .unknownCompression := by
    unfold decodePacket
    rw [if_pos h]
  exact ⟨hd, fun p hp => by rw [hd] at hp; exact Except.noConfusion hp⟩

/-- Witness for C6 at the spec's `zzz-unknown` example. -/
theorem decodePacket_unknown_compression_witness :
    decodePacket unknownCompPacket = .error .unknownCompression ∧
    ∀ p, decodePacket unknownCompPacket ≠ .ok p :=
  decodePacket_unknown_compression unknownCompPacket (by decide)

/-- **C7.** A packet whose error slot is set cannot be encoded: `encode`
fails with `PacketError.cannotEncodeError` and never returns bytes. -/
theorem encodePacket_errored (p : Packet) (h : p.error.isSome = true) :
    encodePacket p = .error .cannotEncodeError ∧ ∀ w, encodePacket p ≠ .ok w := by
  have he : encodePacket p = .error .cannotEncodeError := by
    unfold encodePacket
    rw [if_pos h]
  exact ⟨he, fun w hw => by rw [he] at hw; exact Except.noConfusion hw⟩

/-- Witness for C7 at a concrete errored packet. -/
theorem encodePacket_errored_witness :
    encodePacket erroredPacket = .error .cannotEncodeError ∧
    ∀ w, encodePacket erroredPacket ≠ .ok w :=
  encodePacket_errored erroredPacket (by decide)

/-- **C9.** Every representable `D_Packet` keeps its metadata within the
header's fixed capacities: `msg_type` at most 31 characters, `table_name`
at most 255, `message_id` at most 63, `compression` at most 15 and the
error message at most 1023, each buffer reserving one byte for the
terminator; no operation producing a `D_Packet` can exceed these bounds. -/
theorem d_packet_metadata_bounds (p : D_Packet) :
    p.msg_type.val.length ≤ 31 ∧ p.table_name.val.length ≤ 255 ∧
    p.message_id.val.length ≤ 63 ∧ p.compression.val.length ≤ 15 ∧
    p.error.val.length ≤ 1023 :=
  ⟨p.msg_type.2, p.table_name.2, p.message_id.2, p.compression.2, p.error.2⟩

/-- **C10.** `D_MaskConfig.mask_char` is a 4-byte buffer: mask characters
of up to 3 bytes are representable (multi-byte sequences included), and a
mask character needing more than 3 bytes is not representable. -/
theorem d_maskConfig_mask_char_bounds :
    (∀ c : D_MaskConfig, c.mask_char.val.length ≤ 3) ∧
    (∃ c : D_MaskConfig, c.mask_char.val.length = 3) ∧
    ¬ ∃ c : D_MaskConfig, 3 < c.mask_char.val.length :=
  ⟨fun c => c.mask_char.2,
   ⟨⟨[], ⟨['a', 'b', 'c'], by decide⟩, 0⟩, rfl⟩,
   fun ⟨c, hc⟩ => absurd c.mask_char.2 (by omega)⟩

end TDTP
